import Mathlib

/-!
Shallow embedding of the marked-plaintify renderer
(src/packages/plaintify/src/index.ts) and proofs about it.

The renderer that actually takes effect is the handler table built by the
loop over the renderer prototype properties (lines 180 to 271 of the
source); earlier standalone handler constants are overwritten by that
loop except for the ones the loop itself references by name
(listitem, tablecell, tablerow).  We embed the effective behaviour.

JavaScript peculiarities are modelled explicitly:
  - strings are Lean strings, string summation is append;
  - token text may be undefined, modelled as an optional string, and
    the JavaScript nullish coalescing of the source is Option.getD;
  - array indexing past the end yields undefined, which string
    concatenation renders as the text "undefined" (jsAt);
  - the split method on a plain separator is jsSplit;
  - filtering an array of strings by Boolean drops empty strings;
  - the array join method with a newline is joinNl;
  - the array map method with an index argument is jsMapIdx.
-/

namespace Plaintify

/-- Double quote character, kept out of literals for readability. -/
def quoteChar : Char := Char.ofNat 34

/-- Apostrophe character. -/
def aposChar : Char := Char.ofNat 39

/-- Concatenation of a list of strings, as JavaScript string summation. -/
def strConcat : List String → String
  | [] => ""
  | s :: rest => s ++ strConcat rest

/-- Replacement applied to a single character by escapeHTML: the escapeMap
of source lines 286 to 292 together with the regex character class of
line 294. -/
def escapeChar (c : Char) : String :=
  if c = '&' then "&amp;"
  else if c = '<' then "&lt;"
  else if c = '>' then "&gt;"
  else if c = quoteChar then "&quot;"
  else if c = aposChar then "&#39;"
  else String.singleton c

/-- Embedding of escapeHTML (source lines 285 to 295): the global regex
replace visits each character once, left to right, replacing the five
special characters by their entities. -/
def escapeHTML (s : String) : String :=
  strConcat (s.data.map escapeChar)

/-- Character list of the reserved cell delimiter of the table handlers,
spelled as an explicit list so that it reduces definitionally. -/
def padChars : List Char :=
  ['_', '_', 'C', 'E', 'L', 'L', '_', 'P', 'A', 'D', '_', '_']

/-- Reserved cell delimiter string, the literal of source lines 131
and 147. -/
def cellPad : String := String.mk padChars

/-- Worker for jsSplit.  The fuel is one more than the input length, so
the fuel never runs out on the intended calls; each step consumes at
least one input character. -/
def splitGo (sep : List Char) : Nat → List Char → List Char → List (List Char)
  | 0, rest, acc => [acc.reverse ++ rest]
  | _ + 1, [], acc => [acc.reverse]
  | f + 1, c :: cs, acc =>
    if sep.isPrefixOf (c :: cs) then
      acc.reverse :: splitGo sep f ((c :: cs).drop sep.length) []
    else
      splitGo sep f cs (c :: acc)

/-- Embedding of the JavaScript split method on a plain, nonempty
separator string: leftmost, non-overlapping cuts, keeping empty
fragments, a trailing empty fragment included when the input ends with
the separator. -/
def jsSplit (s sep : String) : List String :=
  (splitGo sep.data (s.data.length + 1) s.data []).map String.mk

/-- JavaScript array indexing inside string concatenation: an index past
the end of the array yields undefined, which concatenation renders as the
text "undefined". -/
def jsAt (l : List String) (i : Nat) : String :=
  l.getD i "undefined"

/-- JavaScript array join with a newline separator. -/
def joinNl : List String → String
  | [] => ""
  | [s] => s
  | s :: rest => s ++ "\n" ++ joinNl rest

/-- Worker for jsMapIdx carrying the running index. -/
def mapIdxGo (f : Nat → String → String) : Nat → List String → List String
  | _, [] => []
  | i, s :: rest => f i s :: mapIdxGo f (i + 1) rest

/-- JavaScript array map receiving the element index as second
argument. -/
def jsMapIdx (f : Nat → String → String) (l : List String) : List String :=
  mapIdxGo f 0 l

/-- Kinds rendered to the empty string (source line 54). -/
def mdIgnores : List String := ["constructor", "hr", "checkbox", "br", "space"]

/-- Kinds rendered as inline passthrough (source line 55). -/
def mdInlines : List String := ["strong", "em", "codespan", "del", "text"]

/-- Kinds rendered as escaped blocks (source line 56); codespan is listed
here too but the inline branch is checked first and shadows it. -/
def mdEscapes : List String := ["html", "code", "codespan"]

/-- Embedding of the tablerow handler (source lines 130 to 138): split
the accumulated row text on the reserved delimiter, drop empty
fragments, and pair each current header label positionally with the
fragment at its own index, one line per label, two trailing newlines.
A missing fragment is the JavaScript undefined value, rendered as the
text "undefined". -/
def tablerowStr (text : String) (hdr : List String) : String :=
  joinNl (jsMapIdx
      (fun i title => title ++ ": " ++ jsAt ((jsSplit text cellPad).filter (fun s => s != "")) i)
      hdr) ++ "\n\n"

/-- Modelled from the spec: the linkOrImage handler is referenced by the
source (lines 247 and 256) but its definition is not under src.  Spec
section 4.4 describes it: emit the visible text of the node, the link
label or image alt text, followed by two newlines, discarding the
target.  The dead standalone link and image constants (source lines 169
to 176) behave identically. -/
def linkOrImage (text : Option String) : String :=
  text.getD "" ++ "\n\n"

/-- Node tree consumed by the renderer, after the external parser has
run.  A `tok` is a generic token with a kind tag, an optional raw text
and child tokens; a `cell` is a table cell carrying the header flag the
tablecell handler tests; a `table` carries its header cells and rows; a
`row` wraps the cell array of one body row. -/
inductive Node : Type where
  | tok (kind : String) (text : Option String) (children : List Node) : Node
  | cell (text : Option String) (children : List Node) (headerFlag : Bool) : Node
  | table (header : List Node) (rows : List Node) : Node
  | row (cells : List Node) : Node

/-- Kind test used by the paragraph handler on its first child token
(source lines 252 to 255). -/
def isLinkOrImage : Node → Bool
  | .tok k _ _ => k == "link" || k == "image"
  | _ => false

/-- Visible text field of a node. -/
def textOf : Node → Option String
  | .tok _ t _ => t
  | .cell t _ _ => t
  | _ => none

mutual

/-- Embedding of the effective handler table (source lines 180 to 271),
dispatching one token by kind and threading the mutable
currentTableHeader state (source line 58) explicitly as the second
argument and result component.  The branch order mirrors the source
chain exactly. -/
def renderNode : Node → List String → String × List String
  | .tok kind text children, st =>
    if mdIgnores.contains kind then ("", st)
    else if mdInlines.contains kind then
      if children.isEmpty then (text.getD "", st)
      else renderTokens children st
    else if mdEscapes.contains kind then (escapeHTML (text.getD "") ++ "\n\n", st)
    else if kind == "list" then
      let r := renderItems children st
      ("\n" ++ r.1.trim ++ "\n\n", r.2)
    else if kind == "listitem" then
      let r := renderTokens children st
      ("\n" ++ r.1.trim, r.2)
    else if kind == "tablerow" then (tablerowStr (text.getD "") st, st)
    else if kind == "tablecell" then
      let r := renderTokens children st
      (r.1 ++ cellPad, r.2)
    else if kind == "link" || kind == "image" then (linkOrImage text, st)
    else if kind == "paragraph" then
      match children with
      | ft :: _ =>
        if isLinkOrImage ft then (linkOrImage (textOf ft), st)
        else (text.getD "" ++ "\n\n", st)
      | [] => (text.getD "" ++ "\n\n", st)
    else
      if children.isEmpty then (text.getD "" ++ "\n\n", st)
      else
        let r := renderTokens children st
        (r.1 ++ "\n\n", r.2)
  | .cell _ children hflag, st =>
    let r := renderTokens children st
    (r.1 ++ cellPad, if hflag then r.2 ++ [r.1] else r.2)
  | .table header rows, _ =>
    renderRows rows "" (renderHeaderCells header [])
  | .row _, st => ("", st)

/-- Embedding of rendering a token sequence through the handler table:
the parser parse and parseInline operations and the parseTokens child
dispatcher (referenced at source lines 194 and 265 but not under src,
modelled from spec section 4.1) all resolve each child through its
handler and concatenate the results. -/
def renderTokens : List Node → List String → String × List String
  | [], st => ("", st)
  | n :: ns, st =>
    let r := renderNode n st
    let rest := renderTokens ns r.2
    (r.1 ++ rest.1, rest.2)

/-- Embedding of the list handler body loop (source lines 205 to 209):
concatenate the listitem renderings of the items. -/
def renderItems : List Node → List String → String × List String
  | [], st => ("", st)
  | n :: ns, st =>
    let r := listitemOn n st
    let rest := renderItems ns r.2
    (r.1 ++ rest.1, rest.2)

/-- Embedding of the listitem handler (source lines 96 to 99) applied to
one item: parse the item children as blocks, trim, prefix one newline.
A node without a token list contributes only the newline. -/
def listitemOn : Node → List String → String × List String
  | .tok _ _ ch, st =>
    let r := renderTokens ch st
    ("\n" ++ r.1.trim, r.2)
  | .cell _ ch _, st =>
    let r := renderTokens ch st
    ("\n" ++ r.1.trim, r.2)
  | .table _ _, st => ("\n", st)
  | .row _, st => ("\n", st)

/-- Embedding of the tablecell handler (source lines 140 to 148) applied
to one node: render the children inline, push the rendered text onto the
header state when the header flag is set, and return the text followed
by the reserved delimiter.  Nodes without a token list render as
empty. -/
def tablecellOn : Node → List String → String × List String
  | .tok _ _ ch, st =>
    let r := renderTokens ch st
    (r.1 ++ cellPad, r.2)
  | .cell _ ch hf, st =>
    let r := renderTokens ch st
    (r.1 ++ cellPad, if hf then r.2 ++ [r.1] else r.2)
  | .table _ _, st => (cellPad, st)
  | .row _, st => (cellPad, st)

/-- Embedding of the header pass of the table handler (source lines 221
to 224): run tablecell on each header cell purely for its push side
effect, discarding the returned text. -/
def renderHeaderCells : List Node → List String → List String
  | [], st => st
  | c :: cs, st => renderHeaderCells cs (tablecellOn c st).2

/-- Embedding of the body pass of the table handler (source lines 227 to
235): for each row, concatenate the tablecell outputs of its cells, hand
the delimited row text to tablerow together with the header state left
by the cells, and append the row output to the accumulated body. -/
def renderRows : List Node → String → List String → String × List String
  | [], body, st => (body, st)
  | .row cs :: rs, body, st =>
    let r := renderCells cs st
    renderRows rs (body ++ tablerowStr r.1 r.2) r.2
  | _ :: rs, body, st =>
    renderRows rs (body ++ tablerowStr "" st) st

/-- Embedding of the cell loop inside the body pass (source lines 230 to
233). -/
def renderCells : List Node → List String → String × List String
  | [], st => ("", st)
  | c :: cs, st =>
    let r := tablecellOn c st
    let rest := renderCells cs r.2
    (r.1 ++ rest.1, rest.2)

end

/-- Rendering one node, the top level render operation. -/
def render (n : Node) (st : List String) : String × List String :=
  renderNode n st

/-- Rendering an ordered sequence of top level nodes. -/
def renderAll (ts : List Node) (st : List String) : String × List String :=
  renderTokens ts st

/-- Shorthand for a plain text token carrying the given string. -/
def textTok (s : String) : Node := .tok "text" (some s) []

/-- Shorthand for a header cell whose content renders to the given
string. -/
def hcell (s : String) : Node := .cell none [textTok s] true

/-- Shorthand for a body cell whose content renders to the given
string. -/
def bcell (s : String) : Node := .cell none [textTok s] false

/-- Absence of any occurrence of the reserved delimiter that starts
strictly inside the given character list once the delimiter is appended
to it.  This is the precise side condition under which the delimiter
based row encoding of the table handler is unambiguous. -/
def noEarlyPad : List Char → Bool
  | [] => true
  | c :: cs => !(padChars.isPrefixOf (c :: (cs ++ padChars))) && noEarlyPad cs

/-- Cell content that cannot collide with the reserved delimiter. -/
def cellBoundaryOk (t : String) : Bool := noEarlyPad t.data

mutual

/-- Trees free of table-row tokens dispatched through the handler table.
A table-row token is the only handler that reads the shared header
state without a preceding reset, so such tokens are the only way the
state left by an earlier render call can influence a later one.  Whole
tables are unconditionally fine because the table handler resets the
state before any internal read. -/
def noTR : Node → Bool
  | .tok k _ c => !(k == "tablerow") && noTRList c
  | .cell _ c _ => noTRList c
  | .table _ _ => true
  | .row cs => noTRList cs

/-- List form of noTR. -/
def noTRList : List Node → Bool
  | [] => true
  | n :: ns => noTR n && noTRList ns

end

/-- Whether a list is a prefix of an appended list only depends on the
first part when that part is at least as long as the candidate
prefix. -/
theorem isPrefixOf_append_eq (p : List Char) : ∀ (x y : List Char), p.length ≤ x.length →
    (p.isPrefixOf (x ++ y)) = (p.isPrefixOf x) := by
  induction p with
  | nil => intro x y _; simp [List.isPrefixOf]
  | cons a p ih =>
    intro x y h
    cases x with
    | nil => simp at h
    | cons b x' =>
      simp only [List.cons_append, List.isPrefixOf, List.append_eq]
      rw [ih x' y (by simpa using h)]

/-- Every list is a prefix of itself followed by anything. -/
theorem isPrefixOf_self_append (p r : List Char) : p.isPrefixOf (p ++ r) = true := by
  induction p with
  | nil => simp [List.isPrefixOf]
  | cons a p ih => simp [List.isPrefixOf, ih]

/-- When the input starts with the separator, the split worker cuts
exactly there. -/
theorem splitGo_cut (sep : List Char) (hne : sep ≠ []) (f : Nat) (rest acc : List Char) :
    splitGo sep (f + 1) (sep ++ rest) acc
      = acc.reverse :: splitGo sep f rest [] := by
  cases sep with
  | nil => exact absurd rfl hne
  | cons a s' =>
    have hp : (a :: s').isPrefixOf (a :: (s' ++ rest)) = true :=
      isPrefixOf_self_append (a :: s') rest
    have hd : List.drop (a :: s').length (a :: (s' ++ rest)) = rest := by
      simp [List.drop_left]
    simp only [List.cons_append, splitGo, List.append_eq]
    simp only [hp, if_true, hd]

/-- The split worker consumes one delimiter-free chunk followed by the
delimiter as one emitted fragment and continues after it. -/
theorem splitGo_chunk : ∀ (t : List Char), ∀ (rest acc : List Char) (f : Nat),
    ((t ++ padChars) ++ rest).length < f → noEarlyPad t = true →
    splitGo padChars f ((t ++ padChars) ++ rest) acc
      = (acc.reverse ++ t) :: splitGo padChars (f - (t.length + 1)) rest [] := by
  intro t
  induction t with
  | nil =>
    intro rest acc f hf _
    obtain ⟨f', rfl⟩ : ∃ f', f = f' + 1 := ⟨f - 1, by omega⟩
    have := splitGo_cut padChars (by simp [padChars]) f' rest acc
    simpa using this
  | cons c t' ih =>
    intro rest acc f hf h
    simp only [noEarlyPad, Bool.and_eq_true, Bool.not_eq_true'] at h
    obtain ⟨h1, h2⟩ := h
    obtain ⟨f', rfl⟩ : ∃ f', f = f' + 1 := ⟨f - 1, by omega⟩
    have hcond : padChars.isPrefixOf (c :: ((t' ++ padChars) ++ rest)) = false := by
      have hsh : c :: ((t' ++ padChars) ++ rest) = (c :: (t' ++ padChars)) ++ rest := rfl
      rw [hsh, isPrefixOf_append_eq padChars _ rest (by simp [padChars])]
      exact h1
    have step : splitGo padChars (f' + 1) (((c :: t') ++ padChars) ++ rest) acc
        = splitGo padChars f' ((t' ++ padChars) ++ rest) (c :: acc) := by
      simp only [List.cons_append, splitGo, List.append_eq]
      simp only [hcond, Bool.false_eq_true, if_false]
    rw [step, ih rest (c :: acc) f' (by simp at hf ⊢; omega) h2]
    have hfuel : f' - (t'.length + 1) = f' + 1 - ((c :: t').length + 1) := by
      simp only [List.length_cons]
      omega
    rw [← hfuel]
    simp

/-- Splitting the delimiter-joined encoding of delimiter-safe chunks
recovers the chunks, followed by one trailing empty fragment. -/
theorem splitGo_cells : ∀ (ls : List (List Char)) (f : Nat),
    ((ls.map (fun l => l ++ padChars)).flatten).length < f →
    (∀ l ∈ ls, noEarlyPad l = true) →
    splitGo padChars f ((ls.map (fun l => l ++ padChars)).flatten) [] = ls ++ [[]] := by
  intro ls
  induction ls with
  | nil =>
    intro f hf _
    obtain ⟨f', rfl⟩ : ∃ f', f = f' + 1 := ⟨f - 1, by omega⟩
    rfl
  | cons l ls' ih =>
    intro f hf hall
    have hsh : ((l :: ls').map (fun l => l ++ padChars)).flatten
        = (l ++ padChars) ++ (ls'.map (fun l => l ++ padChars)).flatten := by
      simp
    rw [hsh] at hf ⊢
    rw [splitGo_chunk l _ [] f hf (hall l (by simp))]
    have hpl : padChars.length = 12 := rfl
    rw [ih (f - (l.length + 1)) (by simp at hf ⊢; omega)
      (fun x hx => hall x (by simp [hx]))]
    simp

/-- Character data of a concatenation of strings. -/
theorem strConcat_data : ∀ (l : List String),
    (strConcat l).data = (l.map String.data).flatten := by
  intro l
  induction l with
  | nil => rfl
  | cons s rest ih => simp [strConcat, ih]

/-- String level form of splitGo_cells: the JavaScript split of the
delimiter-joined cell texts recovers the cell texts plus one trailing
empty fragment, whenever no cell text collides with the delimiter. -/
theorem jsSplit_cells (ts : List String) (h : ∀ t ∈ ts, cellBoundaryOk t = true) :
    jsSplit (strConcat (ts.map (fun t => t ++ cellPad))) cellPad = ts ++ [""] := by
  unfold jsSplit
  have hdata : (strConcat (ts.map (fun t => t ++ cellPad))).data
      = ((ts.map String.data).map (fun l => l ++ padChars)).flatten := by
    rw [strConcat_data]
    congr 1
    simp [List.map_map]
    intro a _
    rfl
  rw [hdata]
  rw [show cellPad.data = padChars from rfl]
  rw [splitGo_cells (ts.map String.data) _ (by omega)
    (by intro l hl; simp at hl; obtain ⟨t, ht, rfl⟩ := hl; exact h t ht)]
  simp
  rw [show (String.mk ∘ String.data) = id from funext fun s => rfl, List.map_id]

/-- Concatenation of string lists distributes over append. -/
theorem strConcat_append : ∀ (a b : List String),
    strConcat (a ++ b) = strConcat a ++ strConcat b := by
  intro a b
  induction a with
  | nil => simp [strConcat]
  | cons s rest ih => simp [strConcat, ih, String.append_assoc]

/-- The header pass over header cells built from plain labels pushes
exactly those labels, in order, onto the incoming state. -/
theorem renderHeaderCells_map : ∀ (hs : List String) (acc : List String),
    renderHeaderCells (hs.map hcell) acc = acc ++ hs := by
  intro hs
  induction hs with
  | nil => intro acc; simp [renderHeaderCells]
  | cons h hs' ih =>
    intro acc
    have hc : (tablecellOn (hcell h) acc).2 = acc ++ [h] := by
      simp [tablecellOn, hcell, renderTokens, renderNode, textTok, mdIgnores, mdInlines]
    simp only [List.map_cons, renderHeaderCells, hc, ih]
    simp

/-- The cell loop over body cells built from plain texts produces the
delimiter-joined encoding of the texts and leaves the state alone. -/
theorem renderCells_map : ∀ (ts : List String) (st : List String),
    renderCells (ts.map bcell) st = (strConcat (ts.map (fun t => t ++ cellPad)), st) := by
  intro ts
  induction ts with
  | nil => intro st; rfl
  | cons t ts' ih =>
    intro st
    have hc : tablecellOn (bcell t) st = (t ++ cellPad, st) := by
      simp [tablecellOn, bcell, renderTokens, renderNode, textTok, mdIgnores, mdInlines]
    simp only [List.map_cons, renderCells, hc, ih, strConcat]

mutual

/-- Output of rendering a tree without table-row tokens does not depend
on the incoming header state. -/
theorem renderNode_out_indep : ∀ (n : Node), noTR n = true →
    ∀ (st st' : List String), (renderNode n st).1 = (renderNode n st').1
  | .tok kind text children => by
    intro h st st'
    simp only [noTR, Bool.and_eq_true, Bool.not_eq_true'] at h
    obtain ⟨hk, hc⟩ := h
    have hk' : ¬(kind = "tablerow") := by simpa using hk
    have ihTok : (renderTokens children st).1 = (renderTokens children st').1 :=
      renderTokens_out_indep children hc st st'
    have ihItems : (renderItems children st).1 = (renderItems children st').1 :=
      renderItems_out_indep children hc st st'
    by_cases h1 : kind ∈ mdIgnores
    · simp [renderNode, h1]
    · by_cases h2 : kind ∈ mdInlines
      · by_cases hce : children.isEmpty
        · simp [renderNode, h1, h2, hce]
        · simp [renderNode, h1, h2, hce, ihTok]
      · by_cases h3 : kind ∈ mdEscapes
        · simp [renderNode, h1, h2, h3]
        · by_cases h4 : kind = "list"
          · subst h4; simp [renderNode, mdIgnores, mdInlines, mdEscapes, ihItems]
          · by_cases h5 : kind = "listitem"
            · subst h5; simp [renderNode, mdIgnores, mdInlines, mdEscapes, ihTok]
            · by_cases h7 : kind = "tablecell"
              · subst h7; simp [renderNode, mdIgnores, mdInlines, mdEscapes, ihTok]
              · by_cases h8 : kind = "link" ∨ kind = "image"
                · rcases h8 with h8 | h8 <;>
                    (subst h8; simp [renderNode, mdIgnores, mdInlines, mdEscapes])
                · by_cases h9 : kind = "paragraph"
                  · subst h9
                    cases children with
                    | nil => simp [renderNode, mdIgnores, mdInlines, mdEscapes]
                    | cons ft rest =>
                      by_cases h10 : isLinkOrImage ft = true
                      · simp [renderNode, mdIgnores, mdInlines, mdEscapes, h10]
                      · simp [renderNode, mdIgnores, mdInlines, mdEscapes, h10]
                  · by_cases hce : children.isEmpty
                    · simp [renderNode, h1, h2, h3, h4, h5, hk', h7, h8, h9, hce]
                    · simp [renderNode, h1, h2, h3, h4, h5, hk', h7, h8, h9, hce, ihTok]
  | .cell t ch hf => by
    intro h st st'
    simp only [noTR] at h
    simp [renderNode, renderTokens_out_indep ch h st st']
  | .table hd rs => by
    intro _ st st'
    simp [renderNode]
  | .row cs => by
    intro _ st st'
    rfl

/-- Sequence form of renderNode_out_indep. -/
theorem renderTokens_out_indep : ∀ (ns : List Node), noTRList ns = true →
    ∀ (st st' : List String), (renderTokens ns st).1 = (renderTokens ns st').1
  | [] => by intro _ st st'; rfl
  | n :: ns => by
    intro h st st'
    simp only [noTRList, Bool.and_eq_true] at h
    obtain ⟨h1, h2⟩ := h
    simp only [renderTokens]
    rw [renderNode_out_indep n h1 st st',
      renderTokens_out_indep ns h2 (renderNode n st).2 (renderNode n st').2]

/-- Item sequence form of renderNode_out_indep. -/
theorem renderItems_out_indep : ∀ (ns : List Node), noTRList ns = true →
    ∀ (st st' : List String), (renderItems ns st).1 = (renderItems ns st').1
  | [] => by intro _ st st'; rfl
  | n :: ns => by
    intro h st st'
    simp only [noTRList, Bool.and_eq_true] at h
    obtain ⟨h1, h2⟩ := h
    simp only [renderItems]
    rw [listitemOn_out_indep n h1 st st',
      renderItems_out_indep ns h2 (listitemOn n st).2 (listitemOn n st').2]

/-- List item form of renderNode_out_indep. -/
theorem listitemOn_out_indep : ∀ (n : Node), noTR n = true →
    ∀ (st st' : List String), (listitemOn n st).1 = (listitemOn n st').1
  | .tok k t ch => by
    intro h st st'
    simp only [noTR, Bool.and_eq_true] at h
    simp [listitemOn, renderTokens_out_indep ch h.2 st st']
  | .cell t ch hf => by
    intro h st st'
    simp only [noTR] at h
    simp [listitemOn, renderTokens_out_indep ch h st st']
  | .table hd rs => by intro _ st st'; rfl
  | .row cs => by intro _ st st'; rfl

end

/-- Tree used to refute the unrestricted double-render claim: a bare
table-row token reads the shared header state before any table has reset
it, so the header label left behind by the later table changes the
output of the second render call. -/
def cexTree : List Node :=
  [Node.tok "tablerow" (some "x__CELL_PAD__") [], Node.table [hcell "H"] []]

/-- Claim C1: a table whose header renders to the labels Name and Age
and whose single body row renders to the cell texts Ann and 30 produces
exactly the string "Name: Ann\nAge: 30\n\n"; the header row contributes
no output of its own. -/
theorem table_linearization_c1 :
    (render (Node.table [hcell "Name", hcell "Age"] [Node.row [bcell "Ann", bcell "30"]]) []).1
      = "Name: Ann\nAge: 30\n\n" := by
  decide

/-- Claim C2, evaluation at the failing input: a body row with fewer
cells than the header does not truncate to the shorter sequence; the
tablerow handler maps over every header label and renders the missing
cell as the text "undefined", so the output is
"Name: Ann\nAge: undefined\n\n" rather than the "Name: Ann\n\n" the
claim requires.  A row with more cells than the header does drop the
extra cells, as the second conjunct shows. -/
theorem short_row_undefined_c2 :
    (render (Node.table [hcell "Name", hcell "Age"] [Node.row [bcell "Ann"]]) []).1
        = "Name: Ann\nAge: undefined\n\n" ∧
    (render (Node.table [hcell "Name", hcell "Age"] [Node.row [bcell "Ann"]]) []).1
        ≠ "Name: Ann\n\n" ∧
    (render (Node.table [hcell "Name"] [Node.row [bcell "Ann", bcell "30"]]) []).1
        = "Name: Ann\n\n" := by
  refine ⟨by decide, by decide, by decide⟩

/-- Claim C3, evaluation at the failing input: a table with header label
Out whose first body row holds a cell containing a complete inner table
with header label In.  The inner table overwrites the shared header
state and nothing restores it, so the second outer row is paired with
the inner label In instead of Out, and the final header state is the
inner header list. -/
theorem nested_table_clobber_c3 :
    render (Node.table [hcell "Out"]
        [Node.row [Node.cell none [Node.table [hcell "In"] [Node.row [bcell "x"]]] false],
         Node.row [bcell "y"]]) []
      = ("In: In: x\n\n\n\nIn: y\n\n", ["In"]) := by
  decide

/-- Claim C4, evaluation at the failing input: the effective paragraph
handler returns the raw text field of the token plus two newlines and
never renders the inline children, so a paragraph whose children are
strong a and text b and whose raw text is the markdown source emits that
source with its markup, not the concatenation of the rendered
children. -/
theorem paragraph_raw_text_c4 :
    (render (Node.tok "paragraph" (some "**a**b")
        [Node.tok "strong" (some "a") [textTok "a"], textTok "b"]) []).1 = "**a**b\n\n" ∧
    (render (Node.tok "paragraph" (some "**a**b")
        [Node.tok "strong" (some "a") [textTok "a"], textTok "b"]) []).1 ≠ "ab\n\n" := by
  refine ⟨by decide, by decide⟩

/-- Claim C5: a paragraph whose first child is a link or image token
delegates entirely to linkOrImage, so the output is the visible text of
that first child followed by exactly two newlines, whatever the
remaining children and the incoming state are, and the state is left
unchanged. -/
theorem paragraph_link_collapse_c5 :
    ∀ (t : Option String) (ft : Node) (rest : List Node) (st : List String),
    isLinkOrImage ft = true →
    render (Node.tok "paragraph" t (ft :: rest)) st = ((textOf ft).getD "" ++ "\n\n", st) := by
  intro t ft rest st h
  have hd : render (Node.tok "paragraph" t (ft :: rest)) st
      = if isLinkOrImage ft then (linkOrImage (textOf ft), st)
        else (t.getD "" ++ "\n\n", st) := rfl
  rw [hd, h]
  rfl

/-- Witness for claim C5 at the concrete paragraph holding a single
link with text Click: the output is "Click\n\n". -/
theorem paragraph_link_collapse_c5_witness :
    isLinkOrImage (Node.tok "link" (some "Click") [textTok "Click"]) = true ∧
    render (Node.tok "paragraph" (some "[Click](x)")
      [Node.tok "link" (some "Click") [textTok "Click"]]) [] = ("Click\n\n", []) :=
  ⟨by decide, paragraph_link_collapse_c5 (some "[Click](x)")
    (Node.tok "link" (some "Click") [textTok "Click"]) [] [] (by decide)⟩

/-- Claim C6: tokens of the suppressed kinds space, hr, checkbox and br
render to the empty string regardless of their text and children, and
leave the state unchanged. -/
theorem suppressed_kinds_c6 : ∀ (t : Option String) (c : List Node) (st : List String),
    render (Node.tok "space" t c) st = ("", st) ∧
    render (Node.tok "hr" t c) st = ("", st) ∧
    render (Node.tok "checkbox" t c) st = ("", st) ∧
    render (Node.tok "br" t c) st = ("", st) :=
  fun _ _ _ => ⟨rfl, rfl, rfl, rfl⟩

/-- Claim C7: escapeHTML processes each character of the input once and
independently, so it distributes over append, and on a single character
it yields the named entity for each of the five special characters and
the character itself otherwise; in particular replacements are never
re-expanded, since each output character group comes from exactly one
input character. -/
theorem escape_char_map_c7 :
    (∀ s t : String, escapeHTML (s ++ t) = escapeHTML s ++ escapeHTML t) ∧
    (∀ c : Char, escapeHTML (String.singleton c)
      = if c = '&' then "&amp;"
        else if c = '<' then "&lt;"
        else if c = '>' then "&gt;"
        else if c = quoteChar then "&quot;"
        else if c = aposChar then "&#39;"
        else String.singleton c) := by
  constructor
  · intro s t
    unfold escapeHTML
    rw [show (s ++ t).data = s.data ++ t.data by simp, List.map_append, strConcat_append]
  · intro c
    show strConcat [escapeChar c] = _
    show escapeChar c ++ "" = _
    rw [String.append_empty]
    rfl

/-- Claim C8: escapeHTML is not idempotent; on the string consisting of
one ampersand, a second application escapes the ampersand introduced by
the first one. -/
theorem escape_not_idempotent_c8 : ∃ s : String, escapeHTML (escapeHTML s) ≠ escapeHTML s :=
  ⟨"&", by decide⟩

/-- Claim C9, counterexample: rendering this two node tree twice in
succession gives two different outputs, because the bare table-row token
reads the header state left behind by the table during the first
call. -/
theorem double_render_differs_c9 :
    (renderAll cexTree []).1 ≠ (renderAll cexTree (renderAll cexTree []).2).1 := by
  decide

/-- Claim C9 as amended: for every tree in which no table-row token
occurs outside a table, rendering twice in succession from a fresh state
yields identical outputs; the render operation is a pure function of the
tree and the state, and trees are immutable by construction. -/
theorem double_render_deterministic_c9 : ∀ (ts : List Node), noTRList ts = true →
    (renderAll ts []).1 = (renderAll ts (renderAll ts []).2).1 := by
  intro ts h
  exact renderTokens_out_indep ts h [] (renderAll ts []).2

/-- Witness for the amended claim C9 at a concrete one table tree. -/
theorem double_render_deterministic_c9_witness :
    noTRList [Node.table [hcell "A"] [Node.row [bcell "v"]]] = true ∧
    (renderAll [Node.table [hcell "A"] [Node.row [bcell "v"]]] []).1
      = (renderAll [Node.table [hcell "A"] [Node.row [bcell "v"]]]
          (renderAll [Node.table [hcell "A"] [Node.row [bcell "v"]]] []).2).1 :=
  ⟨by decide, double_render_deterministic_c9 [Node.table [hcell "A"] [Node.row [bcell "v"]]]
    (by decide)⟩

/-- Claim C10: in a table with arbitrary header labels and one body row
of delimiter-safe cell texts, empty cell texts are filtered out of the
delimiter-split row text before pairing, so the remaining cell texts
shift left and each header label at index i is paired with the i-th
nonempty cell text, the text "undefined" standing in once the nonempty
texts run out; positional column alignment is therefore not preserved in
the presence of empty cells. -/
theorem empty_cell_shift_c10 : ∀ (hs ts st0 : List String),
    (∀ t ∈ ts, cellBoundaryOk t = true) →
    (render (Node.table (hs.map hcell) [Node.row (ts.map bcell)]) st0).1
      = joinNl (jsMapIdx
          (fun i title => title ++ ": " ++ jsAt (ts.filter (fun s => s != "")) i) hs)
        ++ "\n\n" := by
  intro hs ts st0 h
  have h1 : render (Node.table (hs.map hcell) [Node.row (ts.map bcell)]) st0
      = renderRows [Node.row (ts.map bcell)] "" hs := by
    simp [render, renderNode, renderHeaderCells_map]
  have h2 : renderRows [Node.row (ts.map bcell)] "" hs
      = ("" ++ tablerowStr (strConcat (ts.map (fun t => t ++ cellPad))) hs, hs) := by
    simp [renderRows, renderCells_map]
  rw [h1, h2]
  show "" ++ tablerowStr (strConcat (ts.map (fun t => t ++ cellPad))) hs = _
  rw [String.empty_append]
  unfold tablerowStr
  simp only [jsSplit_cells ts h]
  have hfilter : ((ts ++ [""]).filter (fun s => s != "")) = ts.filter (fun s => s != "") := by
    simp [List.filter_append]
  simp only [hfilter]

/-- Witness for claim C10: header labels Name and Age with the row cell
texts empty and 30; the empty cell is dropped, 30 shifts under the Name
label and the Age label is paired with the text "undefined". -/
theorem empty_cell_shift_c10_witness :
    (∀ t ∈ (["", "30"] : List String), cellBoundaryOk t = true) ∧
    (render (Node.table ((["Name", "Age"] : List String).map hcell)
      [Node.row ((["", "30"] : List String).map bcell)]) []).1
      = "Name: 30\nAge: undefined\n\n" :=
  ⟨by decide, (empty_cell_shift_c10 ["Name", "Age"] ["", "30"] [] (by decide)).trans (by decide)⟩

end Plaintify
